import Mathlib

/-!
Verification of the literal-normalization engine, market registry and address
derivation of the drift protocol client constants module
(src/sdk-rs/src/constants/mod.rs), as a shallow embedding over lists of
characters and natural-number bytes.
-/

/-! Hexadecimal helpers, mirroring the hex crate and i128::from_str_radix. -/

/-- True for the ASCII characters accepted as hexadecimal digits. -/
def isHexDigitChar (c : Char) : Bool :=
  ('0' ≤ c && c ≤ '9') || ('a' ≤ c && c ≤ 'f') || ('A' ≤ c && c ≤ 'F')

/-- Numeric value of a hexadecimal digit character. -/
def hexDigitVal (c : Char) : Nat :=
  if '0' ≤ c && c ≤ '9' then c.toNat - '0'.toNat
  else if 'a' ≤ c && c ≤ 'f' then c.toNat - 'a'.toNat + 10
  else c.toNat - 'A'.toNat + 10

/-- hex::decode(s).is_ok(): the string has an even number of characters and
every character is a hexadecimal digit. -/
def hexDecodeOk (s : List Char) : Bool :=
  s.length % 2 == 0 && s.all isHexDigitChar

/-- Value of a nonempty all-hex digit string, none otherwise. -/
def parseHexDigits (s : List Char) : Option Nat :=
  if s.isEmpty then none
  else if s.all isHexDigitChar then
    some (s.foldl (fun a c => a * 16 + hexDigitVal c) 0)
  else none

/-- One more than the largest i128 value. -/
def i128Hi : Nat := 2 ^ 127

/-- i128::from_str_radix(s, 16): optional sign, then at least one hexadecimal
digit, rejecting values outside the signed 128-bit range. -/
def i128FromStrRadix16 (s : List Char) : Option Int :=
  match s with
  | '+' :: rest =>
    (parseHexDigits rest).bind fun n => if n + 1 ≤ i128Hi then some (n : Int) else none
  | '-' :: rest =>
    (parseHexDigits rest).bind fun n => if n ≤ i128Hi then some (-(n : Int)) else none
  | _ =>
    (parseHexDigits s).bind fun n => if n + 1 ≤ i128Hi then some (n : Int) else none

/-- True iff the stripped content begins with a minus sign. -/
def startsWithDash : List Char → Bool
  | '-' :: _ => true
  | _ => false

/-- The integer branch of fixup_item: when the content starts with a dash or is
accepted by hex::decode, the result of i128::from_str_radix in base 16. -/
def intFixup (s : List Char) : Option Int :=
  if startsWithDash s || hexDecodeOk s then i128FromStrRadix16 s else none

/-! Base58 decoding as performed by bs58 / solana Pubkey::from_str. -/

/-- The base58 alphabet used by bs58. -/
def base58Chars : List Char :=
  ("123456789ABCDEFGHJKLMNPQRSTUVWXYZabcdefghijkmnopqrstuvwxyz").toList

/-- Index of a character in a digit list, counting from i. -/
def base58IndexFrom : List Char → Nat → Char → Option Nat
  | [], _, _ => none
  | d :: ds, i, c => if d = c then some i else base58IndexFrom ds (i + 1) c

/-- Value of a single base58 digit character, none for characters outside the
alphabet. -/
def base58Val (c : Char) : Option Nat := base58IndexFrom base58Chars 0 c

/-- Base-58 value of a string, none when some character is not in the
alphabet. -/
def base58Value (s : List Char) : Option Nat :=
  s.foldl (fun acc c => acc.bind fun a => (base58Val c).map fun v => a * 58 + v) (some 0)

/-- Number of leading one characters, each contributing a leading zero byte. -/
def leadingOnes : List Char → Nat
  | [] => 0
  | c :: cs => if c = '1' then leadingOnes cs + 1 else 0

/-- Minimal big-endian byte representation of n (empty for 0); the fuel bounds
the number of produced bytes and is in every use at least the byte length. -/
def natBytesBEFuel : Nat → Nat → List Nat
  | 0, _ => []
  | f + 1, n => if n = 0 then [] else natBytesBEFuel f (n / 256) ++ [n % 256]

/-- bs58 decoding: leading one characters become leading zero bytes, followed
by the minimal big-endian bytes of the base-58 value of the whole string. -/
def base58Decode (s : List Char) : Option (List Nat) :=
  (base58Value s).map fun n => List.replicate (leadingOnes s) 0 ++ natBytesBEFuel s.length n

/-- Pubkey::from_str: at most 44 characters, base58-decodable, exactly 32
bytes; returns the raw bytes of the key. -/
def pubkeyFromStr (s : List Char) : Option (List Nat) :=
  if s.length ≤ 44 then
    (base58Decode s).bind fun bs => if bs.length = 32 then some bs else none
  else none

/-! JSON rendering of the replacement values, as serde_json::to_string. -/

/-- Plain decimal JSON representation of a signed integer. -/
def jsonInt (v : Int) : List Char := (toString v).toList

/-- Compact JSON array-of-bytes representation, as serde_json renders a byte
array. -/
def jsonByteArray (bs : List Nat) : List Char :=
  match bs with
  | [] => ['[', ']']
  | b :: rest =>
    '[' :: ((toString b).toList ++ (rest.map fun x => ',' :: (toString x).toList).flatten ++ [']'])

/-! The per-token rewriter fixup_item. -/

/-- str::trim_start_matches with a quote pattern: drop all leading quotes. -/
def trimStartQuotes : List Char → List Char
  | '\"' :: cs => trimStartQuotes cs
  | s => s

/-- Strip all leading and trailing quote characters, as the chained
trim_start_matches / trim_end_matches calls do. -/
def stripQuotes (s : List Char) : List Char :=
  (trimStartQuotes (trimStartQuotes s).reverse).reverse

/-- str::replace for a nonempty pattern: replace all non-overlapping
occurrences left to right; the fuel bounds the number of scanning steps and the
input length always suffices. -/
def replaceSubFuel (pat rep : List Char) : Nat → List Char → List Char
  | 0, s => s
  | _ + 1, [] => []
  | f + 1, c :: cs =>
    if !pat.isEmpty && pat.isPrefixOf (c :: cs) then
      rep ++ replaceSubFuel pat rep f (List.drop pat.length (c :: cs))
    else
      c :: replaceSubFuel pat rep f cs

/-- str::replace on a whole string. -/
def replaceSub (pat rep s : List Char) : List Char := replaceSubFuel pat rep s.length s

/-- fixup_item from src/sdk-rs/src/constants/mod.rs: strip surrounding quotes;
when the content starts with a dash or is accepted by hex::decode and parses as
an i128 in base 16, emit its decimal representation; else when it parses as a
base58 32-byte public key, emit the JSON byte array; else return the original
token with the 5Min and 24H substring substitutions applied. -/
def fixup_item (tok : List Char) : List Char :=
  match intFixup (stripQuotes tok) with
  | some v => jsonInt v
  | none =>
    match pubkeyFromStr (stripQuotes tok) with
    | some bs => jsonByteArray bs
    | none =>
      replaceSub (("24H").toList) (("24h").toList)
        (replaceSub (("5Min").toList) (("5min").toList) tok)

/-! The two regex passes of replace_fixup_input. Pass 1 rewrites every
leftmost-first match of the pattern brace ws quoted-content ws colon ws brace
ws brace (non-greedy content, dot excluding newline) to its capture group;
pass 2 rewrites every leftmost shortest quoted token through fixup_item. The
scanners below implement the lazy-quantifier backtracking of the regex crate
for these two fixed patterns. -/

/-- Whitespace class of the regex escape, Unicode white space. -/
def isWs (c : Char) : Bool :=
  c.toNat = 32 || c.toNat = 9 || c.toNat = 10 || c.toNat = 11 || c.toNat = 12 ||
  c.toNat = 13 || c.toNat = 133 || c.toNat = 160 || c.toNat = 5760 ||
  (8192 ≤ c.toNat && c.toNat ≤ 8202) || c.toNat = 8232 || c.toNat = 8233 ||
  c.toNat = 8239 || c.toNat = 8287 || c.toNat = 12288

/-- Greedily skip whitespace. -/
def skipWs : List Char → List Char
  | [] => []
  | c :: cs => if isWs c then skipWs cs else c :: cs

/-- Skip whitespace, then consume one expected literal character. -/
def eatChar (c : Char) (l : List Char) : Option (List Char) :=
  match skipWs l with
  | [] => none
  | d :: ds => if d = c then some ds else none

/-- Match the fixed tail of pass-1 pattern after the captured group: ws colon
ws open-brace ws close-brace ws close-brace; returns the remainder. -/
def tailMatch (l : List Char) : Option (List Char) :=
  (eatChar ':' l).bind fun l1 =>
    (eatChar '\x7b' l1).bind fun l2 =>
      (eatChar '\x7d' l2).bind fun l3 => eatChar '\x7d' l3

/-- Lazy scan for the captured content of pass 1: starting right after the
opening quote, extend the content one non-newline character at a time, closing
at the first quote after which the pattern tail also matches; mirrors the
backtracking of the non-greedy quantifier. Returns content and remainder. -/
def contentScan : List Char → Option (List Char × List Char)
  | [] => none
  | c :: cs =>
    if c = '\n' then none
    else
      match cs with
      | [] => none
      | d :: cs2 =>
        if d = '\"' then
          match tailMatch cs2 with
          | some rem => some ([c], rem)
          | none => (contentScan (d :: cs2)).map fun p => (c :: p.1, p.2)
        else (contentScan (d :: cs2)).map fun p => (c :: p.1, p.2)

/-- Attempt a pass-1 pattern match at the head of the list; on success return
the captured quoted key (the replacement text) and the remainder after the
whole match. -/
def pat1At (l : List Char) : Option (List Char × List Char) :=
  match l with
  | '\x7b' :: l1 =>
    match skipWs l1 with
    | '\"' :: l2 => (contentScan l2).map fun p => ('\"' :: (p.1 ++ ['\"']), p.2)
    | _ => none
  | _ => none

/-- Pass-1 replace_all: scan left to right, replacing each leftmost match by
its capture and continuing after it; the fuel bounds the number of scanning
steps and the input length always suffices, since every step consumes at least
one character. -/
def pass1Fuel : Nat → List Char → List Char
  | 0, s => s
  | _ + 1, [] => []
  | f + 1, c :: cs =>
    match pat1At (c :: cs) with
    | some (cap, rest) => cap ++ pass1Fuel f rest
    | none => c :: pass1Fuel f cs

/-- Pass 1 of replace_fixup_input. -/
def pass1 (s : List Char) : List Char := pass1Fuel s.length s

/-- Scan for the first closing quote, the content before it being non-newline
characters; returns content and the remainder after the closing quote. -/
def closeScan : List Char → Option (List Char × List Char)
  | [] => none
  | c :: cs =>
    if c = '\"' then some ([], cs)
    else if c = '\n' then none
    else (closeScan cs).map fun p => (c :: p.1, p.2)

/-- Attempt a pass-2 token match at the head of the list: an opening quote, at
least one non-newline content character, and the first closing quote after
that; returns content and remainder. -/
def tokenAt : List Char → Option (List Char × List Char)
  | '\"' :: c1 :: tail =>
    if c1 = '\n' then none
    else (closeScan tail).map fun p => (c1 :: p.1, p.2)
  | _ => none

/-- Pass-2 replace_all: rewrite every leftmost shortest quoted token through
fixup_item; fuel as in pass1Fuel. -/
def pass2Fuel : Nat → List Char → List Char
  | 0, s => s
  | _ + 1, [] => []
  | f + 1, c :: cs =>
    match tokenAt (c :: cs) with
    | some (ct, rest) => fixup_item ('\"' :: (ct ++ ['\"'])) ++ pass2Fuel f rest
    | none => c :: pass2Fuel f cs

/-- Pass 2 of replace_fixup_input. -/
def pass2 (s : List Char) : List Char := pass2Fuel s.length s

/-- replace_fixup_input from src/sdk-rs/src/constants/mod.rs: the empty-object
collapse pass followed by the per-token rewriting pass. -/
def replace_fixup_input (s : List Char) : List Char := pass2 (pass1 s)

/-! The market registry ProgramData. The bundled JSON blobs and the external
market account structs are not part of the sources under verification, so the
decoded record is modelled from the spec with the fields the claims mention. -/

/-- Modelled from the spec: a decoded market record; the drift_program market
structs are external, so only the name buffer and the market index are kept.
Per the spec the index is implied by ordinal position in the decoded
sequence. -/
structure MarketRecord where
  name : List Char
  index : Nat
deriving DecidableEq

/-- Modelled from the spec: the wrapper record whose single field holds the
actual market record payload. -/
structure WrapperRec where
  account : List Char
deriving DecidableEq

/-- Address lookup table: key plus ordered address list, addresses as byte
lists. -/
structure AddressLookupTableAccount where
  key : List Nat
  addresses : List (List Nat)
deriving DecidableEq

/-- ProgramData from src/sdk-rs/src/constants/mod.rs: two ordered market
sequences plus the lookup table. -/
structure ProgramData where
  spot_markets : List MarketRecord
  perp_markets : List MarketRecord
  lookup_table : AddressLookupTableAccount
deriving DecidableEq

/-- Modelled from the spec: unwrap each wrapper in order, the market index of
each record being its ordinal position (counted from k). -/
def decodeMarketsFrom (k : Nat) : List WrapperRec → List MarketRecord
  | [] => []
  | w :: ws => { name := w.account, index := k } :: decodeMarketsFrom (k + 1) ws

/-- Modelled from the spec: the typed decoder for one normalized blob. -/
def decodeMarkets (ws : List WrapperRec) : List MarketRecord := decodeMarketsFrom 0 ws

/-- ProgramData::new, with the two decoded wrapper sequences standing for the
network-selected bundled blobs (which are not under the verified sources). -/
def ProgramData.new (spotRaw perpRaw : List WrapperRec)
    (lookup_table : AddressLookupTableAccount) : ProgramData :=
  { spot_markets := decodeMarkets spotRaw
    perp_markets := decodeMarkets perpRaw
    lookup_table := lookup_table }

/-- ProgramData::uninitialized: empty sequences and a zero-valued lookup-table
key. -/
def ProgramData.uninitialized : ProgramData :=
  { spot_markets := []
    perp_markets := []
    lookup_table := { key := List.replicate 32 0, addresses := [] } }

/-- ProgramData::spot_market_configs: the full spot sequence. -/
def ProgramData.spot_market_configs (r : ProgramData) : List MarketRecord :=
  r.spot_markets

/-- ProgramData::perp_market_configs: the full perp sequence. -/
def ProgramData.perp_market_configs (r : ProgramData) : List MarketRecord :=
  r.perp_markets

/-- ProgramData::spot_market_config_by_index: positional lookup via slice
get. -/
def ProgramData.spot_market_config_by_index (r : ProgramData) (market_index : Nat) :
    Option MarketRecord :=
  r.spot_markets.get? market_index

/-- ProgramData::perp_market_config_by_index: positional lookup via slice
get. -/
def ProgramData.perp_market_config_by_index (r : ProgramData) (market_index : Nat) :
    Option MarketRecord :=
  r.perp_markets.get? market_index

/-! Address derivation. The platform primitive Pubkey::find_program_address is
an external collaborator, modelled as an arbitrary function from a seed list
and a program id to an address-bump pair. -/

/-- Seed-derivation primitive type: seeds and program id to address and
bump. -/
abbrev Fpa : Type := List (List Nat) → List Nat → List Nat × Nat

/-- UTF-8 bytes of an ASCII seed string. -/
def byteStr (s : String) : List Nat := s.toList.map Char.toNat

/-- u16::to_le_bytes of a market index. -/
def u16ToLeBytes (market_index : Nat) : List Nat :=
  [market_index % 256, market_index / 256 % 256]

/-- derive_spot_market_account: seeds are the fixed string and the
little-endian index bytes. -/
def derive_spot_market_account (fpa : Fpa) (pid : List Nat) (market_index : Nat) :
    List Nat :=
  (fpa [byteStr ("spot_market"), u16ToLeBytes market_index] pid).1

/-- derive_spot_market_vault: same shape with its own fixed seed string. -/
def derive_spot_market_vault (fpa : Fpa) (pid : List Nat) (market_index : Nat) :
    List Nat :=
  (fpa [byteStr ("spot_market_vault"), u16ToLeBytes market_index] pid).1

/-- derive_drift_signer: fixed seed, no index. -/
def derive_drift_signer (fpa : Fpa) (pid : List Nat) : List Nat :=
  (fpa [byteStr ("drift_signer")] pid).1

/-- The value the state-account cell is initialized with. -/
def stateValue (fpa : Fpa) (pid : List Nat) : List Nat :=
  (fpa [byteStr ("drift_state")] pid).1

/-- state_account as one atomic OnceLock::get_or_init step on the cell: an
empty cell is filled with the computed value, a filled cell is returned as
is. -/
def state_account (fpa : Fpa) (pid : List Nat) :
    Option (List Nat) → List Nat × Option (List Nat)
  | none => (stateValue fpa pid, some (stateValue fpa pid))
  | some v => (v, some v)

/-- Run n state_account calls from a cell state, collecting the returned
addresses and the final cell. -/
def runCalls (fpa : Fpa) (pid : List Nat) : Nat → Option (List Nat) → List (List Nat) × Option (List Nat)
  | 0, st => ([], st)
  | n + 1, st =>
    let r := state_account fpa pid st
    let rest := runCalls fpa pid n r.2
    (r.1 :: rest.1, rest.2)

/-- Number of times the initializer runs during n calls from a cell state. -/
def initCount (fpa : Fpa) (pid : List Nat) : Nat → Option (List Nat) → Nat
  | 0, _ => 0
  | n + 1, none => 1 + initCount fpa pid n (some (stateValue fpa pid))
  | n + 1, some v => initCount fpa pid n (some v)

/-! Helper lemmas. -/

/-- A nonempty pattern that is not an infix leaves str::replace scanning
unchanged. -/
theorem replaceSubFuel_id (pat rep : List Char) (f : Nat) :
    ∀ s : List Char, ¬ (pat <:+: s) → replaceSubFuel pat rep f s = s := by
  induction f with
  | zero => intro s _; rfl
  | succ f ih =>
    intro s h
    cases s with
    | nil => rfl
    | cons c cs =>
      have hp : pat.isPrefixOf (c :: cs) = false := by
        rw [Bool.eq_false_iff]
        intro hb
        exact h (List.IsPrefix.isInfix (List.isPrefixOf_iff_prefix.mp hb))
      have hcs : ¬ (pat <:+: cs) := fun hi => h (List.infix_cons hi)
      simp [replaceSubFuel, hp, ih cs hcs]

/-- str::replace of a pattern that does not occur is the identity. -/
theorem replaceSub_id (pat rep s : List Char) (h : ¬ (pat <:+: s)) :
    replaceSub pat rep s = s :=
  replaceSubFuel_id pat rep s.length s h

/-- Bytes returned by Pubkey::from_str always number exactly 32. -/
theorem pubkeyFromStr_length (s : List Char) (bs : List Nat)
    (h : pubkeyFromStr s = some bs) : bs.length = 32 := by
  unfold pubkeyFromStr at h
  split at h
  · cases hb : base58Decode s with
    | none => rw [hb] at h; simp at h
    | some l =>
      rw [hb] at h
      simp only [Option.bind] at h
      split at h
      · cases h
        assumption
      · cases h
  · cases h

/-! C1. The claim as frozen is refuted by odd-length hexadecimal content:
hex::decode rejects an odd number of digits, so such a token is not replaced,
although its content parses as an i128 in base 16. -/

/-- C1 counterexample: the quoted token abc consists of valid hexadecimal
digits and parses as the signed 128-bit integer 2748 in base 16, yet the
normalizer leaves the document unchanged (the token is not replaced by the
decimal literal), because hex::decode rejects the odd-length content. -/
theorem C1_counterexample :
    replace_fixup_input (("[\"abc\"]").toList) = ("[\"abc\"]").toList ∧
    (("abc").toList).all isHexDigitChar = true ∧
    i128FromStrRadix16 (("abc").toList) = some 2748 ∧
    ("[\"abc\"]").toList ≠ ("[2748]").toList := by
  refine ⟨by decide, by decide, by decide, by decide⟩

/-- C1 (amended): for every quoted string token whose stripped content starts
with a dash, or is accepted by hex::decode, i.e. consists of an even number of
valid hexadecimal digits, if the content parses as a signed 128-bit integer in
base 16 then fixup_item replaces the token with the integer's plain decimal
representation without quotes. -/
theorem C1_amended_hex_token_to_decimal (tok : List Char) (v : Int)
    (h1 : startsWithDash (stripQuotes tok) = true ∨ hexDecodeOk (stripQuotes tok) = true)
    (h2 : i128FromStrRadix16 (stripQuotes tok) = some v) :
    fixup_item tok = jsonInt v := by
  have hc : (startsWithDash (stripQuotes tok) || hexDecodeOk (stripQuotes tok)) = true := by
    rcases h1 with h | h <;> simp [h]
  unfold fixup_item intFixup
  rw [if_pos hc, h2]

/-- C1 witness: the quoted hex token 1a is replaced by the unquoted decimal
literal 26. -/
theorem C1_witness : fixup_item (("\"1a\"").toList) = jsonInt 26 :=
  C1_amended_hex_token_to_decimal (("\"1a\"").toList) 26 (Or.inr (by decide)) (by decide)

/-! C3. Tokens not taken by the integer branch and whose content is a base58
32-byte public key become the JSON byte array of the raw key bytes. -/

/-- C3: for every quoted string token not replaced by a decimal integer under
rule 1 (the integer branch yields none), if its stripped content parses as a
base58-encoded 32-byte public key then fixup_item replaces the token with the
JSON array-of-bytes representation of its 32 raw bytes, a 32-element numeric
array carrying exactly the decoded bytes. -/
theorem C3_pubkey_token_to_byte_array (tok : List Char) (bs : List Nat)
    (h1 : intFixup (stripQuotes tok) = none)
    (h2 : pubkeyFromStr (stripQuotes tok) = some bs) :
    fixup_item tok = jsonByteArray bs ∧ bs.length = 32 := by
  constructor
  · unfold fixup_item
    rw [h1, h2]
  · exact pubkeyFromStr_length _ _ h2

/-- C3 witness: a concrete valid base58 32-byte key string becomes the
32-element byte array that decodes back to the very same bytes. -/
theorem C3_witness :
    fixup_item (("\"So11111111111111111111111111111111111111112\"").toList) =
      jsonByteArray [6,155,136,87,254,171,129,132,251,104,127,99,70,24,192,53,
        218,196,57,220,26,235,59,85,152,160,240,0,0,0,0,1] ∧
    ([6,155,136,87,254,171,129,132,251,104,127,99,70,24,192,53,
      218,196,57,220,26,235,59,85,152,160,240,0,0,0,0,1] : List Nat).length = 32 :=
  C3_pubkey_token_to_byte_array _ _ (by decide) (by decide)

/-! C4. Tokens converted neither to an integer nor to a byte array keep their
quotes and receive exactly the two substring substitutions. -/

/-- C4: for every quoted string token converted neither to an integer nor to a
byte array, fixup_item returns the original token with every 5Min occurrence
rewritten to 5min and then every 24H occurrence rewritten to 24h; in
particular a token containing neither substring is returned completely
unchanged. -/
theorem C4_fallback_substitutions (tok : List Char)
    (h1 : intFixup (stripQuotes tok) = none)
    (h2 : pubkeyFromStr (stripQuotes tok) = none) :
    fixup_item tok =
      replaceSub (("24H").toList) (("24h").toList)
        (replaceSub (("5Min").toList) (("5min").toList) tok) ∧
    (¬ ((("5Min").toList) <:+: tok) → ¬ ((("24H").toList) <:+: tok) →
      fixup_item tok = tok) := by
  have hmain : fixup_item tok =
      replaceSub (("24H").toList) (("24h").toList)
        (replaceSub (("5Min").toList) (("5min").toList) tok) := by
    unfold fixup_item
    rw [h1, h2]
  refine ⟨hmain, fun h5 h24 => ?_⟩
  rw [hmain, replaceSub_id _ _ _ h5, replaceSub_id _ _ _ h24]

/-- C4 witness: a plain text token has its 5Min and 24H substrings
case-normalized and all other characters kept. -/
theorem C4_witness :
    fixup_item (("\"every5Minute24Hour\"").toList) =
      replaceSub (("24H").toList) (("24h").toList)
        (replaceSub (("5Min").toList) (("5min").toList)
          (("\"every5Minute24Hour\"").toList)) :=
  (C4_fallback_substitutions (("\"every5Minute24Hour\"").toList)
    (by decide) (by decide)).1

/-! C2. Pass 1 of the normalizer. The frozen claim is refuted: the non-greedy
content of the pass-1 pattern backtracks across quotes, so an occurrence of
the exact shape can be consumed inside a larger leftmost match instead of
being replaced by its own bare key. -/

/-- Pass-1 scanning of an exhausted input returns the empty output at any
fuel. -/
theorem pass1Fuel_nil (f : Nat) : pass1Fuel f [] = [] := by
  cases f <;> rfl

/-- Content scan over a quote-free, newline-free nonempty literal followed by
the closing quote and a successfully matching pattern tail captures exactly
the literal. -/
theorem contentScan_lit (lit : List Char) (r rem : List Char) (h1 : lit ≠ [])
    (h2 : ∀ c ∈ lit, c ≠ '\"' ∧ c ≠ '\n') (h3 : tailMatch r = some rem) :
    contentScan (lit ++ '\"' :: r) = some (lit, rem) := by
  induction lit with
  | nil => exact absurd rfl h1
  | cons c cs ih =>
    have hn : c ≠ '\n' := (h2 c (by simp)).2
    cases cs with
    | nil =>
      simp [contentScan, hn, h3]
    | cons d ds =>
      have hd : d ≠ '\"' := (h2 d (by simp)).1
      have ihr := ih (by simp) (fun x hx => h2 x (by simp [hx]))
      simp only [List.cons_append] at ihr ⊢
      rw [contentScan]
      simp [hn, hd, ihr]

/-- C2 counterexample: the input that appends the exact shape (open brace,
quoted foo key, colon, space, empty object, close brace) after a brace and a
quoted text fragment. Pass 1 replaces one larger backtracked match instead of
the shape occurrence, so the result is not the surrounding text with the bare
key substituted in that position. -/
theorem C2_counterexample :
    pass1 (("\x7b\"a\" ").toList ++ ("\x7b\"foo\": \x7b\x7d\x7d").toList) =
      ("\"a\" \x7b\"foo\"").toList ∧
    ("\"a\" \x7b\"foo\"").toList ≠ ("\x7b\"a\" ").toList ++ ("\"foo\"").toList := by
  refine ⟨by decide, by decide⟩

/-- C2 (amended): pass 1 performs a leftmost-first non-greedy regex
replacement, so an occurrence of the exact shape that is itself the leftmost
match is replaced by the bare quoted key text: for every nonempty quote-free
newline-free literal, the standalone shape input collapses to the bare quoted
key; backtracking can instead consume an occurrence inside a larger earlier
match, so the per-occurrence reading fails in arbitrary context. The collapse
pass always runs before the per-token pass 2. -/
theorem C2_amended_pass1_collapse (lit : List Char) (h1 : lit ≠ [])
    (h2 : ∀ c ∈ lit, c ≠ '\"' ∧ c ≠ '\n') :
    pass1 ('\x7b' :: '\"' :: (lit ++ ['\"', ':', ' ', '\x7b', '\x7d', '\x7d'])) =
      '\"' :: (lit ++ ['\"']) ∧
    (∀ s : List Char, replace_fixup_input s = pass2 (pass1 s)) := by
  refine ⟨?_, fun s => rfl⟩
  have hcs : contentScan (lit ++ '\"' :: [':', ' ', '\x7b', '\x7d', '\x7d']) =
      some (lit, []) :=
    contentScan_lit lit [':', ' ', '\x7b', '\x7d', '\x7d'] [] h1 h2 (by decide)
  have hw : isWs '\"' = false := by decide
  have hpat : pat1At ('\x7b' :: '\"' :: (lit ++ ['\"', ':', ' ', '\x7b', '\x7d', '\x7d'])) =
      some ('\"' :: (lit ++ ['\"']), []) := by
    rw [pat1At]
    simp [skipWs, hw, hcs]
  have hlen : ('\x7b' :: '\"' :: (lit ++ ['\"', ':', ' ', '\x7b', '\x7d', '\x7d'])).length =
      (lit.length + 7) + 1 := by
    simp
  unfold pass1
  rw [hlen]
  rw [pass1Fuel]
  rw [hpat]
  simp [pass1Fuel_nil]

/-- C2 witness: the standalone shape input with the foo key collapses under
pass 1 to the bare quoted key. -/
theorem C2_witness :
    pass1 ('\x7b' :: '\"' :: ((("foo").toList) ++ ['\"', ':', ' ', '\x7b', '\x7d', '\x7d'])) =
      '\"' :: ((("foo").toList) ++ ['\"']) :=
  (C2_amended_pass1_collapse (("foo").toList) (by decide) (by decide)).1

/-! Registry lemmas: positional decoding. -/

/-- Lookup into the decoded sequence shifts the positional index by the
starting offset. -/
theorem decodeMarketsFrom_get (k : Nat) (ws : List WrapperRec) :
    ∀ i : Nat, (decodeMarketsFrom k ws).get? i =
      (ws.get? i).map fun w => { name := w.account, index := k + i } := by
  induction ws generalizing k with
  | nil => intro i; simp [decodeMarketsFrom]
  | cons w ws ih =>
    intro i
    cases i with
    | zero => simp [decodeMarketsFrom]
    | succ j =>
      have hstep : decodeMarketsFrom k (w :: ws) =
          { name := w.account, index := k } :: decodeMarketsFrom (k + 1) ws := rfl
      have harith : k + 1 + j = k + (j + 1) := by omega
      rw [hstep, List.get?_cons_succ, List.get?_cons_succ, ih (k + 1) j]
      simp only [harith]

/-- Decoding preserves the sequence length. -/
theorem decodeMarketsFrom_length (k : Nat) (ws : List WrapperRec) :
    (decodeMarketsFrom k ws).length = ws.length := by
  induction ws generalizing k with
  | nil => rfl
  | cons w ws ih => simp [decodeMarketsFrom, ih]

/-- C5: in every successfully constructed registry the market index of each
record equals its position, for spot markets and perp markets alike; hence a
lookup by index i returns a record whose index field equals i, and the lookup
at the sequence length returns absent. -/
theorem C5_positional_index_invariant (s p : List WrapperRec)
    (l : AddressLookupTableAccount) (i : Nat) :
    (∀ m : MarketRecord,
      (ProgramData.new s p l).spot_market_config_by_index i = some m → m.index = i) ∧
    (∀ m : MarketRecord,
      (ProgramData.new s p l).perp_market_config_by_index i = some m → m.index = i) ∧
    (ProgramData.new s p l).spot_market_config_by_index
      ((ProgramData.new s p l).spot_markets.length) = none := by
  refine ⟨?_, ?_, ?_⟩
  · intro m hm
    unfold ProgramData.spot_market_config_by_index ProgramData.new decodeMarkets at hm
    rw [decodeMarketsFrom_get] at hm
    simp only [Option.map_eq_some'] at hm
    obtain ⟨w, -, hw⟩ := hm
    rw [← hw]
    simp
  · intro m hm
    unfold ProgramData.perp_market_config_by_index ProgramData.new decodeMarkets at hm
    rw [decodeMarketsFrom_get] at hm
    simp only [Option.map_eq_some'] at hm
    obtain ⟨w, -, hw⟩ := hm
    rw [← hw]
    simp
  · unfold ProgramData.spot_market_config_by_index ProgramData.new decodeMarkets
    exact List.get?_len_le (Nat.le_refl _)

/-- C5 witness: a singleton registry yields the record at index zero with
index field zero. -/
theorem C5_witness :
    ({ name := ("A").toList, index := 0 } : MarketRecord).index = 0 :=
  (C5_positional_index_invariant [{ account := ("A").toList }] []
    { key := List.replicate 32 0, addresses := [] } 0).1
    { name := ("A").toList, index := 0 } (by decide)

/-- C6: for every registry and index, the positional lookups return absent
exactly when the index reaches the length of the corresponding sequence, and
a present record exactly otherwise; absence is an ordinary optional result,
not an error. -/
theorem C6_absent_iff_out_of_range (r : ProgramData) (i : Nat) :
    (r.spot_market_config_by_index i = none ↔ r.spot_markets.length ≤ i) ∧
    (r.perp_market_config_by_index i = none ↔ r.perp_markets.length ≤ i) ∧
    ((r.spot_market_config_by_index i).isSome = true ↔ i < r.spot_markets.length) ∧
    ((r.perp_market_config_by_index i).isSome = true ↔ i < r.perp_markets.length) := by
  unfold ProgramData.spot_market_config_by_index ProgramData.perp_market_config_by_index
  refine ⟨List.get?_eq_none, List.get?_eq_none, ?_, ?_⟩ <;>
  · constructor
    · intro h
      obtain ⟨a, ha⟩ := Option.isSome_iff_exists.mp h
      obtain ⟨hlt, -⟩ := List.get?_eq_some.mp ha
      exact hlt
    · intro h
      rw [Option.isSome_iff_exists]
      exact ⟨_, List.get?_eq_get h⟩

/-- C7: the uninitialized registry has empty spot and perp sequences, a
zero-valued lookup-table key and no lookup-table addresses; every indexed
lookup on it returns absent and every operation is total. -/
theorem C7_uninitialized_registry (i : Nat) :
    ProgramData.uninitialized.spot_markets = [] ∧
    ProgramData.uninitialized.perp_markets = [] ∧
    ProgramData.uninitialized.lookup_table.key = List.replicate 32 0 ∧
    ProgramData.uninitialized.lookup_table.addresses = [] ∧
    ProgramData.uninitialized.spot_market_configs = [] ∧
    ProgramData.uninitialized.perp_market_configs = [] ∧
    ProgramData.uninitialized.spot_market_config_by_index i = none ∧
    ProgramData.uninitialized.perp_market_config_by_index i = none := by
  refine ⟨rfl, rfl, rfl, rfl, rfl, rfl, ?_, ?_⟩ <;>
    simp [ProgramData.uninitialized, ProgramData.spot_market_config_by_index,
      ProgramData.perp_market_config_by_index]

/-- C8: each address derivation feeds exactly its fixed seed string (and, for
the per-market ones, the little-endian two-byte index encoding) together with
the program identifier to the platform primitive; the spot-market and vault
seeds differ, the index encoding is two bytes and is injective on the u16
range, and as pure functions repeated calls with the same index coincide. -/
theorem C8_derivation_seeds (fpa : Fpa) (pid : List Nat) (i j : Nat)
    (hi : i < 65536) (hj : j < 65536) :
    derive_spot_market_account fpa pid i =
      (fpa [byteStr ("spot_market"), u16ToLeBytes i] pid).1 ∧
    derive_spot_market_vault fpa pid i =
      (fpa [byteStr ("spot_market_vault"), u16ToLeBytes i] pid).1 ∧
    derive_drift_signer fpa pid = (fpa [byteStr ("drift_signer")] pid).1 ∧
    byteStr ("spot_market") ≠ byteStr ("spot_market_vault") ∧
    (u16ToLeBytes i).length = 2 ∧
    (u16ToLeBytes i = u16ToLeBytes j ↔ i = j) := by
  refine ⟨rfl, rfl, rfl, by decide, rfl, ?_⟩
  constructor
  · intro h
    simp only [u16ToLeBytes, List.cons.injEq, and_true] at h
    omega
  · intro h
    rw [h]

/-- C8 witness: the index encoding separates two distinct concrete indices. -/
theorem C8_witness : u16ToLeBytes 7 = u16ToLeBytes 9 ↔ 7 = 9 :=
  (C8_derivation_seeds (fun _ _ => ([], 0)) [] 7 9 (by decide) (by decide)).2.2.2.2.2

/-! C9: the state-account cell. OnceLock::get_or_init is atomic by the
contract of the standard library primitive, so every interleaving of calls is
a sequence of state_account steps on the cell. -/

/-- Calls on an already-filled cell return the stored value and never run the
initializer again. -/
theorem runCalls_filled (fpa : Fpa) (pid : List Nat) (v : List Nat) :
    ∀ n : Nat, runCalls fpa pid n (some v) = (List.replicate n v, some v) := by
  intro n
  induction n with
  | zero => rfl
  | succ k ih => simp [runCalls, state_account, ih, List.replicate_succ]

/-- The initializer never runs on a filled cell. -/
theorem initCount_filled (fpa : Fpa) (pid : List Nat) (v : List Nat) :
    ∀ n : Nat, initCount fpa pid n (some v) = 0 := by
  intro n
  induction n with
  | zero => rfl
  | succ k ih => simp [initCount, ih]

/-- C9: starting from the empty cell, every sequence of state_account calls
returns the one fixed derived value at every call, the cell afterwards holds
exactly that value, the initializer runs at most once over the whole
sequence, and it has not run before the first call (laziness). -/
theorem C9_state_account_single_value (fpa : Fpa) (pid : List Nat) (n : Nat) :
    (runCalls fpa pid n none).1 = List.replicate n (stateValue fpa pid) ∧
    (0 < n → (runCalls fpa pid n none).2 = some (stateValue fpa pid)) ∧
    initCount fpa pid n none ≤ 1 ∧
    initCount fpa pid 0 none = 0 := by
  cases n with
  | zero => exact ⟨rfl, fun h => absurd h (by omega), by simp [initCount], rfl⟩
  | succ k =>
    refine ⟨?_, fun _ => ?_, ?_, rfl⟩
    · simp [runCalls, state_account, runCalls_filled, List.replicate_succ]
    · simp [runCalls, state_account, runCalls_filled]
    · simp [initCount, initCount_filled]

/-- C9 witness: two calls from the empty cell leave the cell holding the
derived state value. -/
theorem C9_witness :
    (runCalls (fun _ _ => ([9], 0)) [] 2 none).2 =
      some (stateValue (fun _ _ => ([9], 0)) []) :=
  (C9_state_account_single_value (fun _ _ => ([9], 0)) [] 2).2.1 (by decide)

/-- C10: point and bulk lookups are mutually consistent: an indexed lookup
returns a record exactly when the index is within the bulk view and the
record is the element of the bulk view at that index, for spot and perp
alike. -/
theorem C10_lookup_matches_views (r : ProgramData) (i : Nat) (m : MarketRecord) :
    (r.spot_market_config_by_index i = some m ↔
      i < (r.spot_market_configs).length ∧ (r.spot_market_configs).get? i = some m) ∧
    (r.perp_market_config_by_index i = some m ↔
      i < (r.perp_market_configs).length ∧ (r.perp_market_configs).get? i = some m) := by
  unfold ProgramData.spot_market_config_by_index ProgramData.perp_market_config_by_index
    ProgramData.spot_market_configs ProgramData.perp_market_configs
  constructor <;>
  · constructor
    · intro h
      obtain ⟨hlt, -⟩ := List.get?_eq_some.mp h
      exact ⟨hlt, h⟩
    · exact fun h => h.2
